import Mathlib

/-!
# Verification of the `lambdahandler` request router

A shallow embedding of the Go package `lambdahandler` (files `router.go` /
`utils.go`): path-template compilation, route registration and lookup,
parameter extraction, CORS preflight and header attachment, and response
normalization.  Go maps (`map[string]string`) are modelled as association
lists whose first matching key wins; Go `nil` maps are `Option.none`;
fallible operations return `Option`.
-/

set_option autoImplicit false

namespace LambdaHandler

/-- Association-list model of Go `map[string]string`.  Keys are unique in
every map the embedded code constructs; lookup returns the first match. -/
abbrev StrMap := List (String × String)

/-- Map lookup: `m[k]` as `Option`. -/
def mapGet : StrMap → String → Option String
  | [], _ => none
  | (k₁, v₁) :: rest, k => if k₁ = k then some v₁ else mapGet rest k

/-- Map insertion `m[k] = v`: replaces the first entry with key `k`, or
appends a fresh entry. -/
def mapSet : StrMap → String → String → StrMap
  | [], k, v => [(k, v)]
  | (k₁, v₁) :: rest, k, v =>
      if k₁ = k then (k, v) :: rest else (k₁, v₁) :: mapSet rest k v

/-- Go map read with the zero-value default: `m[k]` is `""` when `k` is
absent. -/
def mapGetD (m : StrMap) (k : String) : String := (mapGet m k).getD ""

/-! ## The compiled pattern (`regexp.Regexp`)

`buildPathPattern` emits the regular expression
`"^" + template[:name ↦ ([^/]+)] + "$"`.  The fragment of Go regexp
syntax reachable this way consists of literal characters, the
metacharacter `.` (any character other than a newline), and the unnamed
group `([^/]+)`.  A compiled pattern is modelled as the list of those
atoms; anchoring is built into the matching function, which must consume
the entire input.  Templates whose literal part contains any other regexp
metacharacter (`\\ + * ? ( ) | [ ] { } ^ $`) are outside the modelled
fragment and compilation returns `none` for them. -/

/-- One atom of the compiled regular expression: a literal character, the
`.` metacharacter, or the unnamed capturing group `([^/]+)` that replaced
a `:name` parameter. -/
inductive Tok where
  | lit (c : Char)
  | dot
  | param
deriving DecidableEq, Repr

/-- The Go regexp metacharacters.  A template character in this list
(other than `.`, which the model supports) makes the compiled pattern
fall outside the modelled fragment. -/
def metachars : List Char :=
  ['\\', '.', '+', '*', '?', '(', ')', '|', '[', ']', '{', '}', '^', '$']

/-- Scanner for the template string, mirroring
`regexp.MustCompile(":([^/]+)").ReplaceAllString(path, "([^/]+)")`
followed by compilation: a `:` followed by at least one non-`/`
character swallows the maximal non-`/` run and becomes the unnamed group
`([^/]+)`; `.` becomes the any-character atom; any other
non-metacharacter stands for itself. -/
def tokenize : List Char → Option (List Tok)
  | [] => some []
  | ':' :: rest =>
      match rest.takeWhile (· ≠ '/') with
      | [] => (tokenize rest).map (Tok.lit ':' :: ·)
      | name =>
          (tokenize (rest.drop name.length)).map (Tok.param :: ·)
  | '.' :: rest => (tokenize rest).map (Tok.dot :: ·)
  | c :: rest =>
      if c ∈ metachars then none
      else (tokenize rest).map (Tok.lit c :: ·)
termination_by cs => cs.length
decreasing_by
  · simp
  · simp [List.length_drop]
    omega
  · simp
  · simp

/-- Model of the compiled `regexp.Regexp` object. -/
structure Regexp where
  toks : List Tok
deriving DecidableEq, Repr

/-- `buildPathPattern` (utils.go): compile a route template such as
`"/resource/:id"` into the anchored pattern
`"^" + template[:name ↦ ([^/]+)] + "$"`.  `none` when the template lies
outside the modelled regexp fragment. -/
def buildPathPattern (path : String) : Option Regexp :=
  (tokenize path.data).map Regexp.mk

/-- `regexp.SubexpNames`: entry 0 is the whole expression, then one entry
per group.  Every group `buildPathPattern` emits is unnamed, so every
entry is `""`. -/
def Regexp.SubexpNames (re : Regexp) : List String :=
  "" :: re.toks.filterMap fun t =>
    match t with
    | .param => some ""
    | _ => none

/-- The suffixes reachable by letting `[^/]+` consume one or more leading
non-`/` characters. -/
def paramSuffixes : List Char → List (List Char)
  | [] => []
  | c :: cs => if c = '/' then [] else cs :: paramSuffixes cs

/-- Anchored matching of a token list against a character list: the whole
input must be consumed (the `^`/`$` anchors of the emitted pattern). -/
def toksMatch : List Tok → List Char → Bool
  | [], cs => cs.isEmpty
  | .lit _ :: _, [] => false
  | .lit c :: ts, x :: xs => x = c && toksMatch ts xs
  | .dot :: _, [] => false
  | .dot :: ts, x :: xs => x ≠ '\n' && toksMatch ts xs
  | .param :: ts, cs => (paramSuffixes cs).any (toksMatch ts)

/-- `regexp.MatchString` for the emitted (anchored) patterns. -/
def Regexp.MatchString (re : Regexp) (s : String) : Bool :=
  toksMatch re.toks s.data

/-- The splits `(consumed, remaining)` reachable by letting `[^/]+`
consume one or more leading non-`/` characters. -/
def paramSplits : List Char → List (List Char × List Char)
  | [] => []
  | c :: cs =>
      if c = '/' then []
      else ([c], cs) :: (paramSplits cs).map fun pr => (c :: pr.1, pr.2)

/-- Matching with capture extraction; groups are greedy, so the longest
viable split is preferred. -/
def toksCaptures : List Tok → List Char → Option (List String)
  | [], cs => if cs.isEmpty then some [] else none
  | .lit _ :: _, [] => none
  | .lit c :: ts, x :: xs => if x = c then toksCaptures ts xs else none
  | .dot :: _, [] => none
  | .dot :: ts, x :: xs => if x ≠ '\n' then toksCaptures ts xs else none
  | .param :: ts, cs =>
      (paramSplits cs).reverse.findSome? fun pr =>
        (toksCaptures ts pr.2).map (String.mk pr.1 :: ·)

/-- `regexp.FindStringSubmatch`: on a match, the matched text (the whole
string, as the pattern is anchored) followed by one capture per group; on
a failed match, the empty (`nil`) slice. -/
def Regexp.FindStringSubmatch (re : Regexp) (s : String) : List String :=
  match toksCaptures re.toks s.data with
  | some caps => s :: caps
  | none => []

/-! ## Params and parameter extraction -/

/-- `Params`: the extracted URL parameters (`map[string]string`). -/
abbrev Params := StrMap

/-- `extractParams` (utils.go): walk `pattern.SubexpNames()` and record
`params[name] = matches[i]` for every named group (skipping index 0).
Out-of-range reads default to `""`; they never occur because the guard
requires a named group, and the emitted patterns have none. -/
def extractParams (path : String) (pattern : Regexp) : Params :=
  let ms := pattern.FindStringSubmatch path
  pattern.SubexpNames.enum.foldl
    (fun params it =>
      if 0 < it.1 ∧ it.2 ≠ "" then mapSet params it.2 (ms.getD it.1 "")
      else params)
    []

/-! ## Handler results, requests, responses -/

/-- Model of the handler success values (`interface{}`) passed to
`json.Marshal`.  `vunser` stands for the values the Go encoder rejects
(channels, functions, cyclic data, unsupported floats); every other
constructor serializes. -/
inductive Value where
  | vnull
  | vint (n : Int)
  | vunser (tag : String)
deriving DecidableEq, Repr

/-- `json.Marshal` at the interface level: `none` models a non-`nil`
returned error (in which case the returned byte slice is `nil`, i.e. the
empty string). -/
def jsonMarshal : Value → Option String
  | .vnull => some "null"
  | .vint n => some (toString n)
  | .vunser _ => none

/-- `LambdaErrorResponse`: the concrete carrier of the `LambdaError`
interface (an integer code and a message). -/
structure LambdaErrorResponse where
  CodeValue : Int
  MessageValue : String
deriving DecidableEq, Repr

/-- `(e *LambdaErrorResponse) Code()`. -/
def LambdaErrorResponse.Code (e : LambdaErrorResponse) : Int := e.CodeValue

/-- `(e *LambdaErrorResponse) Message()`. -/
def LambdaErrorResponse.Message (e : LambdaErrorResponse) : String := e.MessageValue

/-- `NewLambdaError`. -/
def NewLambdaError (code : Int) (message : String) : LambdaErrorResponse :=
  ⟨code, message⟩

/-- The incoming `events.LambdaFunctionURLRequest`, flattened to the
fields the router reads: `req.RequestContext.HTTP.Method`,
`req.RequestContext.HTTP.Path` and `req.Headers`. -/
structure Request where
  Method : String
  Path : String
  Headers : StrMap
deriving DecidableEq, Repr

/-- The outgoing `events.LambdaFunctionURLResponse`.  `Headers = none`
models the `nil` map (the Go zero value). -/
structure Envelope where
  StatusCode : Int
  Headers : Option StrMap
  Body : String
deriving DecidableEq, Repr

/-- `HandlerFunc`: a route handler returns either a success value or a
`LambdaError` (exactly one of the two; the `context.Context` argument
carries no routing-relevant information and is dropped). -/
abbrev HandlerFunc := Request → Params → Except LambdaErrorResponse Value

/-- `Route`: one registered route. -/
structure Route where
  Method : String
  Pattern : Regexp
  Handler : HandlerFunc
  Template : String

/-- `Router`: the ordered route table plus the CORS configuration. -/
structure Router where
  routes : List Route
  Origins : List String
  Methods : List String
  Headers : List String

/-- `NewRouter`: empty table, wildcard CORS defaults. -/
def NewRouter : Router :=
  { routes := [], Origins := ["*"], Methods := ["*"], Headers := ["*"] }

/-- `AddRoute`: compile the template and append the route.  `none` when
the template is outside the modelled regexp fragment. -/
def Router.AddRoute (r : Router) (method path : String) (handler : HandlerFunc) :
    Option Router :=
  (buildPathPattern path).map fun pattern =>
    { r with routes := r.routes ++
        [{ Method := method, Pattern := pattern, Handler := handler, Template := path }] }

/-- `Get` shortcut. -/
def Router.Get (r : Router) (path : String) (handler : HandlerFunc) : Option Router :=
  r.AddRoute "GET" path handler

/-- `Post` shortcut. -/
def Router.Post (r : Router) (path : String) (handler : HandlerFunc) : Option Router :=
  r.AddRoute "POST" path handler

/-- `Put` shortcut. -/
def Router.Put (r : Router) (path : String) (handler : HandlerFunc) : Option Router :=
  r.AddRoute "PUT" path handler

/-- `Delete` shortcut. -/
def Router.Delete (r : Router) (path : String) (handler : HandlerFunc) : Option Router :=
  r.AddRoute "DELETE" path handler

/-! ## Response builders and CORS -/

/-- `ErrorResponse`: status is the error's code, body is
`"Error: " + message`, no headers (`nil` map). -/
def ErrorResponse (err : LambdaErrorResponse) : Envelope :=
  { StatusCode := err.Code
    Headers := none
    Body := "Error: " ++ err.Message }

/-- `SuccessResponse`: fixed status 200, JSON body,
`Content-Type: application/json`.  The marshalling error is discarded
(`body, _ := json.Marshal(data)`); on failure the body is the string of
the `nil` slice, i.e. `""`. -/
def SuccessResponse (data : Value) : Envelope :=
  { StatusCode := 200
    Headers := some [("Content-Type", "application/json")]
    Body := (jsonMarshal data).getD "" }

/-- `isOriginAllowed`: wildcard configuration
(`len(Origins) == 1 && Origins[0] == "*"`) allows everything; otherwise
the origin must equal one of the configured entries. -/
def Router.isOriginAllowed (r : Router) (origin : String) : Bool :=
  if r.Origins.length == 1 && r.Origins.getD 0 "" == "*" then true
  else r.Origins.contains origin

/-- `corsPreflightResponse`: 403 without headers for a disallowed origin,
otherwise 200 echoing the origin and the configured lists joined by
`", "`. -/
def Router.corsPreflightResponse (r : Router) (req : Request) : Envelope :=
  let origin := mapGetD req.Headers "origin"
  if !r.isOriginAllowed origin then
    { StatusCode := 403, Headers := none, Body := "Origin not allowed" }
  else
    { StatusCode := 200
      Headers := some
        [("Access-Control-Allow-Origin", origin),
         ("Access-Control-Allow-Methods", String.intercalate ", " r.Methods),
         ("Access-Control-Allow-Headers", String.intercalate ", " r.Headers)]
      Body := "" }

/-- `attachCORSHeaders`: overwrite the three access-control headers on
the response (allocating the map when it is `nil`), falling back to `"*"`
when the origin is absent or not allowed. -/
def Router.attachCORSHeaders (r : Router) (response : Envelope) (req : Request) :
    Envelope :=
  let origin := mapGetD req.Headers "origin"
  let origin := if origin == "" || !r.isOriginAllowed origin then "*" else origin
  let hs := response.Headers.getD []
  let hs := mapSet hs "Access-Control-Allow-Origin" origin
  let hs := mapSet hs "Access-Control-Allow-Methods" (String.intercalate ", " r.Methods)
  let hs := mapSet hs "Access-Control-Allow-Headers" (String.intercalate ", " r.Headers)
  { response with Headers := some hs }

/-- The origin value that `attachCORSHeaders` writes into
`Access-Control-Allow-Origin`: the request's origin when present and
allowed, else the wildcard. -/
def corsAllowOrigin (r : Router) (req : Request) : String :=
  let origin := mapGetD req.Headers "origin"
  if origin == "" || !r.isOriginAllowed origin then "*" else origin

/-! ## The dispatcher -/

/-- Outcome of the route-matching `for` loop inside `HandleRequest`:
either the loop `return`s an error envelope directly (skipping the code
after the loop), or control falls through with the response produced by
a matching handler (`some`) or untouched (`none`). -/
inductive LoopOutcome where
  | earlyReturn (resp : Envelope)
  | fell (resp : Option Envelope)
deriving DecidableEq

/-- The route-matching loop of `HandleRequest`: scan in registration
order; on the first route whose method and pattern both match, extract
the params and run the handler — a handler error is returned immediately
(`return ErrorResponse(err), nil`), a success breaks out of the loop with
the success envelope. -/
def routeLoop (req : Request) : List Route → LoopOutcome
  | [] => .fell none
  | route :: rest =>
      if route.Method = req.Method ∧ route.Pattern.MatchString req.Path then
        match route.Handler req (extractParams req.Path route.Pattern) with
        | .error err => .earlyReturn (ErrorResponse err)
        | .ok data => .fell (some (SuccessResponse data))
      else routeLoop req rest

/-- `HandleRequest`: preflight short-circuit, route scan, 404 fallback
(the zero-valued response has `StatusCode == 0`), CORS header
attachment.  The Go error component of the return value is always `nil`
and is omitted. -/
def Router.HandleRequest (r : Router) (req : Request) : Envelope :=
  if req.Method = "OPTIONS" then r.corsPreflightResponse req
  else
    match routeLoop req r.routes with
    | .earlyReturn resp => resp
    | .fell found =>
        let response := found.getD { StatusCode := 0, Headers := none, Body := "" }
        let response :=
          if response.StatusCode = 0 then
            { StatusCode := 404, Headers := none, Body := "Route not found" }
          else response
        r.attachCORSHeaders response req

/-- The outcome `HandleRequest` produces once a route has been selected:
errors are returned directly, successes pass through the 404 guard
(vacuously, their status is 200) and CORS header attachment. -/
def dispatchVia (r : Router) (req : Request) (rt : Route) : Envelope :=
  match rt.Handler req (extractParams req.Path rt.Pattern) with
  | .error err => ErrorResponse err
  | .ok data => r.attachCORSHeaders (SuccessResponse data) req

/-! ## Segment view of templates and paths

The specification describes matching segment-wise: a path is split at
`/`, literal template segments must coincide with the path segment, and
parameter segments accept any single non-empty segment. -/

/-- Split a character list at every `'/'` (like `String.splitOn "/"`,
the result is never empty and its pieces are `'/'`-free). -/
def splitSlash : List Char → List (List Char)
  | [] => [[]]
  | c :: rest =>
      if c = '/' then [] :: splitSlash rest
      else
        match splitSlash rest with
        | [] => [[c]]
        | s :: ss => (c :: s) :: ss

/-- A template segment that is entirely a parameter: a `':'` followed by
a non-empty name. -/
def isParamSeg : List Char → Bool
  | ':' :: _ :: _ => true
  | _ => false

/-- Template segments covered by the segment-wise reading: a parameter
segment, or a literal segment containing neither `':'` (which would
start a parameter mid-segment) nor `'.'` (which the pattern language
reads as any-character). -/
def wellFormedSeg (s : List Char) : Bool :=
  isParamSeg s || (!s.contains ':' && !s.contains '.')

/-- Segment-wise acceptance: a parameter segment accepts any non-empty
path segment, a literal segment only its exact copy. -/
def segAccept (tseg pseg : List Char) : Prop :=
  if isParamSeg tseg then pseg ≠ [] else pseg = tseg

/-- The atoms of a literal character run. -/
def litToks (s : List Char) : List Tok := s.map Tok.lit

/-- The atoms one segment compiles to. -/
def segToks (s : List Char) : List Tok :=
  if isParamSeg s then [Tok.param] else litToks s

/-- The atoms a segment list compiles to, joined by literal `'/'`. -/
def tmplToks : List (List Char) → List Tok
  | [] => []
  | [s] => segToks s
  | s :: s₂ :: rest => segToks s ++ Tok.lit '/' :: tmplToks (s₂ :: rest)

/-! ## Map lemmas -/

theorem mapGet_mapSet_self (m : StrMap) (k v : String) :
    mapGet (mapSet m k v) k = some v := by
  induction m with
  | nil => simp [mapGet, mapSet]
  | cons kv rest ih =>
      by_cases h : kv.1 = k
      · simp [mapGet, mapSet, h]
      · simp [mapGet, mapSet, h, ih]

theorem mapGet_mapSet_ne (m : StrMap) (k v k₂ : String) (h : k₂ ≠ k) :
    mapGet (mapSet m k v) k₂ = mapGet m k₂ := by
  have hk : ¬k = k₂ := fun hk => h hk.symm
  induction m with
  | nil => simp only [mapSet, mapGet, if_neg hk]
  | cons kv rest ih =>
      by_cases h₁ : kv.1 = k
      · have hkv : ¬kv.1 = k₂ := by rw [h₁]; exact hk
        simp only [mapSet, if_pos h₁, mapGet, if_neg hk, if_neg hkv]
      · simp only [mapSet, if_neg h₁, mapGet]
        by_cases h₂ : kv.1 = k₂
        · simp [h₂]
        · simp [h₂, ih]

/-! ## Parameter extraction is degenerate: every emitted group is unnamed -/

theorem subexpNames_all_empty (re : Regexp) :
    ∀ s ∈ re.SubexpNames, s = "" := by
  intro s hs
  simp only [Regexp.SubexpNames, List.mem_cons, List.mem_filterMap] at hs
  rcases hs with h | ⟨t, _, ht⟩
  · exact h
  · cases t <;> simp_all

theorem extractParams_eq_nil (path : String) (re : Regexp) :
    extractParams path re = [] := by
  unfold extractParams
  have h : ∀ (names : List (Nat × String)) (acc : Params),
      (∀ it ∈ names, it.2 = "") →
      names.foldl
        (fun params it =>
          if 0 < it.1 ∧ it.2 ≠ "" then
            mapSet params it.2 ((re.FindStringSubmatch path).getD it.1 "")
          else params) acc = acc := by
    intro names
    induction names with
    | nil => intro acc _; rfl
    | cons it rest ih =>
        intro acc hall
        have h₂ : it.2 = "" := hall it (List.mem_cons_self it rest)
        simp only [List.foldl_cons, h₂]
        rw [if_neg (by simp)]
        exact ih acc fun x hx => hall x (List.mem_cons_of_mem it hx)
  refine h _ _ ?_
  intro it hit
  have := List.mem_enum hit
  exact subexpNames_all_empty re _ (List.mem_iff_get.mpr ⟨⟨it.1, this.1⟩, this.2.symm⟩)

/-! ## Route-loop lemmas -/

theorem routeLoop_append (req : Request) (a b : List Route) :
    routeLoop req (a ++ b) =
      (if routeLoop req a = .fell none then routeLoop req b else routeLoop req a) := by
  induction a with
  | nil => simp [routeLoop]
  | cons rt rest ih =>
      by_cases h : rt.Method = req.Method ∧ rt.Pattern.MatchString req.Path
      · simp only [List.cons_append, routeLoop, if_pos h]
        cases rt.Handler req (extractParams req.Path rt.Pattern) with
        | error e => simp
        | ok d => simp
      · simp only [List.cons_append, routeLoop, if_neg h]
        exact ih

theorem routeLoop_of_no_match (req : Request) (l : List Route)
    (h : ∀ rt ∈ l, ¬(rt.Method = req.Method ∧ rt.Pattern.MatchString req.Path)) :
    routeLoop req l = .fell none := by
  induction l with
  | nil => rfl
  | cons rt rest ih =>
      simp only [routeLoop, if_neg (h rt (List.mem_cons_self rt rest))]
      exact ih fun x hx => h x (List.mem_cons_of_mem rt hx)

theorem no_match_of_routeLoop_fell_none (req : Request) (l : List Route)
    (h : routeLoop req l = .fell none) :
    ∀ rt ∈ l, ¬(rt.Method = req.Method ∧ rt.Pattern.MatchString req.Path) := by
  induction l with
  | nil => simp
  | cons rt rest ih =>
      intro x hx
      by_cases hm : rt.Method = req.Method ∧ rt.Pattern.MatchString req.Path
      · exfalso
        simp only [routeLoop, if_pos hm] at h
        cases hh : rt.Handler req (extractParams req.Path rt.Pattern) <;> simp [hh] at h
      · rcases List.mem_cons.mp hx with h₁ | h₁
        · exact h₁ ▸ hm
        · simp only [routeLoop, if_neg hm] at h
          exact ih h x h₁

/-! ## splitSlash lemmas -/

theorem splitSlash_ne_nil (cs : List Char) : splitSlash cs ≠ [] := by
  induction cs with
  | nil => simp [splitSlash]
  | cons c rest ih =>
      by_cases hc : c = '/'
      · simp [splitSlash, hc]
      · simp only [splitSlash, if_neg hc]
        cases h : splitSlash rest with
        | nil => simp
        | cons s ss => simp

theorem splitSlash_no_slash (cs : List Char) (h : ∀ c ∈ cs, c ≠ '/') :
    splitSlash cs = [cs] := by
  induction cs with
  | nil => rfl
  | cons c rest ih =>
      have hc : c ≠ '/' := h c (by simp)
      have hr := ih fun x hx => h x (by simp [hx])
      simp [splitSlash, hc, hr]

theorem splitSlash_append (x cs₂ : List Char) (h : ∀ c ∈ x, c ≠ '/') :
    splitSlash (x ++ '/' :: cs₂) = x :: splitSlash cs₂ := by
  induction x with
  | nil => simp [splitSlash]
  | cons a x ih =>
      have ha : a ≠ '/' := h a (by simp)
      have hx := ih fun c hc => h c (by simp [hc])
      simp [splitSlash, ha, hx]

theorem mem_splitSlash_no_slash (cs : List Char) :
    ∀ s ∈ splitSlash cs, ∀ c ∈ s, c ≠ '/' := by
  induction cs with
  | nil =>
      intro s hs
      simp only [splitSlash, List.mem_singleton] at hs
      simp [hs]
  | cons c rest ih =>
      by_cases hc : c = '/'
      · intro s hs
        rw [hc] at hs
        simp only [splitSlash, if_pos rfl] at hs
        cases hs with
        | head => simp
        | tail b h₁ => exact ih s h₁
      · intro s hs
        simp only [splitSlash, if_neg hc] at hs
        cases h : splitSlash rest with
        | nil => exact absurd h (splitSlash_ne_nil rest)
        | cons s₁ ss =>
            rw [h] at hs
            rcases List.mem_cons.mp hs with h₁ | h₁
            · subst h₁
              intro d hd
              rcases List.mem_cons.mp hd with h₂ | h₂
              · exact h₂ ▸ hc
              · exact ih s₁ (by rw [h]; exact List.mem_cons_self s₁ ss) d h₂
            · exact ih s (by rw [h]; exact List.mem_cons_of_mem s₁ h₁)

theorem splitSlash_inversion (cs x : List Char) (xs : List (List Char))
    (h : splitSlash cs = x :: xs) :
    (xs = [] ∧ cs = x) ∨ (∃ cs₂, cs = x ++ '/' :: cs₂ ∧ splitSlash cs₂ = xs) := by
  induction cs generalizing x xs with
  | nil =>
      simp only [splitSlash] at h
      obtain ⟨h₁, h₂⟩ := List.cons.inj h
      exact Or.inl ⟨h₂.symm, h₁⟩
  | cons c rest ih =>
      by_cases hc : c = '/'
      · subst hc
        simp only [splitSlash, if_pos rfl] at h
        obtain ⟨h₁, h₂⟩ := List.cons.inj h
        right
        exact ⟨rest, by rw [← h₁]; rfl, h₂⟩
      · simp only [splitSlash, if_neg hc] at h
        cases hrest : splitSlash rest with
        | nil => exact absurd hrest (splitSlash_ne_nil rest)
        | cons s ss =>
            rw [hrest] at h
            obtain ⟨h₁, h₂⟩ := List.cons.inj h
            rcases ih s ss hrest with ⟨hss, hrs⟩ | ⟨cs₂, hdec, hsp⟩
            · left
              exact ⟨h₂ ▸ hss, by rw [← h₁, hrs]⟩
            · right
              exact ⟨cs₂, by rw [← h₁, hdec]; rfl, by rw [← h₂, hsp]⟩

/-! ## Matching lemmas -/

theorem toksMatch_lit_cons (c : Char) (ts : List Tok) (cs : List Char) :
    toksMatch (.lit c :: ts) cs = true ↔
      ∃ cs₂, cs = c :: cs₂ ∧ toksMatch ts cs₂ = true := by
  cases cs with
  | nil =>
      constructor
      · intro h; simp [toksMatch] at h
      · rintro ⟨cs₂, heq, _⟩; cases heq
  | cons x xs =>
      simp only [toksMatch, Bool.and_eq_true, decide_eq_true_eq]
      constructor
      · rintro ⟨hx, hm⟩
        exact ⟨xs, by rw [hx], hm⟩
      · rintro ⟨cs₂, heq, hm⟩
        obtain ⟨h₁, h₂⟩ := List.cons.inj heq
        exact ⟨h₁, h₂ ▸ hm⟩

theorem toksMatch_litToks_append (l : List Char) (ts : List Tok) (cs : List Char) :
    toksMatch (litToks l ++ ts) cs = true ↔
      ∃ cs₂, cs = l ++ cs₂ ∧ toksMatch ts cs₂ = true := by
  induction l generalizing cs with
  | nil => simp [litToks]
  | cons a l ih =>
      simp only [litToks, List.map_cons, List.cons_append]
      rw [toksMatch_lit_cons]
      constructor
      · rintro ⟨cs₂, heq, hm⟩
        obtain ⟨cs₃, heq₂, hm₂⟩ := (ih cs₂).mp hm
        exact ⟨cs₃, by rw [heq, heq₂], hm₂⟩
      · rintro ⟨cs₂, heq, hm⟩
        cases cs with
        | nil => cases heq
        | cons x xs =>
            obtain ⟨h₁, h₂⟩ := List.cons.inj heq
            exact ⟨xs, by rw [h₁], (ih xs).mpr ⟨cs₂, h₂, hm⟩⟩

theorem toksMatch_param_cons (ts : List Tok) (cs : List Char) :
    toksMatch (.param :: ts) cs = true ↔
      ∃ pre suf, cs = pre ++ suf ∧ pre ≠ [] ∧ (∀ c ∈ pre, c ≠ '/') ∧
        toksMatch ts suf = true := by
  induction cs with
  | nil =>
      constructor
      · intro h; simp [toksMatch, paramSuffixes] at h
      · rintro ⟨pre, suf, heq, hne, _, _⟩
        cases pre with
        | nil => exact absurd rfl hne
        | cons a b => cases heq
  | cons c cs ih =>
      by_cases hc : c = '/'
      · subst hc
        constructor
        · intro h; simp [toksMatch, paramSuffixes] at h
        · rintro ⟨pre, suf, heq, hne, hsl, _⟩
          cases pre with
          | nil => exact absurd rfl hne
          | cons a pre₂ =>
              obtain ⟨h₁, _⟩ := List.cons.inj heq
              exact absurd h₁.symm (hsl a (by simp))
      · have hunfold : toksMatch (.param :: ts) (c :: cs) =
            (toksMatch ts cs || toksMatch (.param :: ts) cs) := by
          simp [toksMatch, paramSuffixes, hc]
        rw [hunfold]
        constructor
        · intro h
          rcases Bool.or_eq_true_iff.mp h with h₁ | h₂
          · exact ⟨[c], cs, rfl, by simp, by simp [hc], h₁⟩
          · obtain ⟨pre, suf, heq, hne, hsl, hm⟩ := ih.mp h₂
            refine ⟨c :: pre, suf, by rw [List.cons_append, heq], by simp, ?_, hm⟩
            intro x hx
            rcases List.mem_cons.mp hx with h₃ | h₃
            · exact h₃ ▸ hc
            · exact hsl x h₃
        · rintro ⟨pre, suf, heq, hne, hsl, hm⟩
          cases pre with
          | nil => exact absurd rfl hne
          | cons a pre₂ =>
              obtain ⟨h₁, h₂⟩ := List.cons.inj heq
              cases pre₂ with
              | nil =>
                  apply Bool.or_eq_true_iff.mpr
                  left
                  have h₃ : cs = suf := by simpa using h₂
                  exact h₃ ▸ hm
              | cons b pre₃ =>
                  apply Bool.or_eq_true_iff.mpr
                  right
                  refine ih.mpr ⟨b :: pre₃, suf, h₂, by simp, ?_, hm⟩
                  intro x hx
                  exact hsl x (List.mem_cons_of_mem a hx)

/-! ## Unfolding lemmas for the template scanner -/

theorem tokenize_nil : tokenize [] = some [] := by
  rw [tokenize.eq_def]

theorem tokenize_cons_lit (c : Char) (rest : List Char) (hc1 : c ≠ ':') (hc2 : c ≠ '.') :
    tokenize (c :: rest) =
      if c ∈ metachars then none else (tokenize rest).map (Tok.lit c :: ·) := by
  rw [tokenize.eq_def]
  split
  all_goals simp_all

theorem tokenize_cons_colon (rest : List Char) :
    tokenize (':' :: rest) =
      (match rest.takeWhile (· ≠ '/') with
       | [] => (tokenize rest).map (Tok.lit ':' :: ·)
       | name => (tokenize (rest.drop name.length)).map (Tok.param :: ·)) := by
  rw [tokenize.eq_def]
  split
  case h_4 a c r h1 h2 heq => exact absurd (List.cons.inj heq).1.symm h1
  all_goals simp_all

theorem tokenize_colon_param (tail : List Char) (hne : tail.takeWhile (· ≠ '/') ≠ []) :
    tokenize (':' :: tail) =
      (tokenize (tail.drop (tail.takeWhile (· ≠ '/')).length)).map (Tok.param :: ·) := by
  rw [tokenize_cons_colon]
  cases h : tail.takeWhile (· ≠ '/') with
  | nil => exact absurd h hne
  | cons a l => rfl

theorem takeWhile_all_append (p : Char → Bool) (l₁ : List Char) (x : Char) (l₂ : List Char)
    (h : ∀ c ∈ l₁, p c = true) (hx : p x = false) :
    (l₁ ++ x :: l₂).takeWhile p = l₁ := by
  induction l₁ with
  | nil => simp [List.takeWhile_cons, hx]
  | cons a l ih =>
      have ha := h a (by simp)
      simp only [List.cons_append, List.takeWhile_cons, ha, if_true]
      rw [ih fun c hc => h c (by simp [hc])]

theorem tokenize_lit_run (x : List Char) (h₁ : ∀ c ∈ x, c ≠ ':') (h₂ : ∀ c ∈ x, c ≠ '.')
    (rest : List Char) (toks : List Tok) (h : tokenize (x ++ rest) = some toks) :
    ∃ toks₂, tokenize rest = some toks₂ ∧ toks = litToks x ++ toks₂ := by
  induction x generalizing toks with
  | nil => exact ⟨toks, h, by simp [litToks]⟩
  | cons a x ih =>
      have ha1 : a ≠ ':' := h₁ a (by simp)
      have ha2 : a ≠ '.' := h₂ a (by simp)
      rw [List.cons_append, tokenize_cons_lit a _ ha1 ha2] at h
      by_cases hm : a ∈ metachars
      · rw [if_pos hm] at h; cases h
      · rw [if_neg hm] at h
        cases htk : tokenize (x ++ rest) with
        | none => rw [htk] at h; cases h
        | some toks₁ =>
            rw [htk, Option.map_some'] at h
            obtain ⟨toks₂, hrest, heq⟩ := ih
              (fun c hc => h₁ c (List.mem_cons_of_mem a hc))
              (fun c hc => h₂ c (List.mem_cons_of_mem a hc)) toks₁ htk
            refine ⟨toks₂, hrest, ?_⟩
            rw [← Option.some.inj h, heq]
            simp [litToks]

/-! ## isParamSeg and wellFormedSeg shapes -/

theorem isParamSeg_param (a : Char) (r : List Char) : isParamSeg (':' :: a :: r) = true := rfl

theorem isParamSeg_nil : isParamSeg [] = false := rfl

theorem isParamSeg_single (c : Char) : isParamSeg [c] = false := by
  rw [isParamSeg.eq_def]
  split <;> simp_all

theorem isParamSeg_cons_ne (c : Char) (t : List Char) (hc : c ≠ ':') :
    isParamSeg (c :: t) = false := by
  rw [isParamSeg.eq_def]
  split
  · next heq => exact absurd (List.cons.inj heq).1 hc
  · rfl

theorem wellFormedSeg_literal (x : List Char) (hwf : wellFormedSeg x = true)
    (hp : isParamSeg x = false) :
    (∀ c ∈ x, c ≠ ':') ∧ ∀ c ∈ x, c ≠ '.' := by
  unfold wellFormedSeg at hwf
  rw [hp] at hwf
  simp only [Bool.false_or, Bool.and_eq_true, Bool.not_eq_true'] at hwf
  obtain ⟨hc, hd⟩ := hwf
  constructor
  · intro c hc₂ hceq
    subst hceq
    exact absurd (List.elem_iff.mpr hc₂) (by simp [List.contains] at hc ⊢; exact hc)
  · intro c hc₂ hceq
    subst hceq
    exact absurd (List.elem_iff.mpr hc₂) (by simp [List.contains] at hd ⊢; exact hd)

/-! ## The compiled atoms are the joined segment atoms -/

theorem tokenize_eq_tmplToks_aux : ∀ (n : Nat) (cs : List Char), cs.length ≤ n →
    ∀ toks, tokenize cs = some toks →
    (∀ s ∈ splitSlash cs, wellFormedSeg s = true) →
    toks = tmplToks (splitSlash cs) := by
  intro n
  induction n with
  | zero =>
      intro cs hlen toks h _
      have hnil : cs = [] := List.length_eq_zero.mp (Nat.le_zero.mp hlen)
      subst hnil
      rw [tokenize_nil] at h
      rw [← Option.some.inj h]
      rfl
  | succ n ih =>
      intro cs hlen toks h hwf
      cases hsp : splitSlash cs with
      | nil => exact absurd hsp (splitSlash_ne_nil cs)
      | cons x xs =>
          have hxmem : x ∈ splitSlash cs := by rw [hsp]; exact List.mem_cons_self x xs
          have hxwf : wellFormedSeg x = true := hwf x hxmem
          have hxsl : ∀ c ∈ x, c ≠ '/' := mem_splitSlash_no_slash cs x hxmem
          rcases splitSlash_inversion cs x xs hsp with ⟨hxs, hcs⟩ | ⟨cs₂, hcs, hsp₂⟩
          · -- final segment: cs = x
            subst hxs
            by_cases hp : isParamSeg x = true
            · -- x = ':' :: a :: r
              rcases x with _ | ⟨c, _ | ⟨a, r⟩⟩
              · rw [isParamSeg_nil] at hp; cases hp
              · rw [isParamSeg_single] at hp; cases hp
              · have hc : c = ':' := by
                  by_contra hne
                  rw [isParamSeg_cons_ne c _ hne] at hp; cases hp
                subst hc
                subst hcs
                have htw : (a :: r).takeWhile (· ≠ '/') = a :: r :=
                  List.takeWhile_eq_self_iff.mpr fun d hd => by
                    simp [hxsl d (List.mem_cons_of_mem ':' hd)]
                rw [tokenize_colon_param _ (by rw [htw]; simp)] at h
                rw [htw, List.drop_length, tokenize_nil, Option.map_some'] at h
                rw [← Option.some.inj h]
                show _ = segToks (':' :: a :: r)
                rw [segToks, if_pos (isParamSeg_param a r)]
            · -- literal segment
              have hp₂ : isParamSeg x = false := by simpa using hp
              obtain ⟨hnc, hnd⟩ := wellFormedSeg_literal x hxwf hp₂
              rw [hcs] at h
              obtain ⟨toks₂, htk₂, heq⟩ := tokenize_lit_run x hnc hnd [] toks
                (by rw [List.append_nil]; exact h)
              rw [tokenize_nil] at htk₂
              rw [heq, ← Option.some.inj htk₂]
              show litToks x ++ [] = segToks x
              rw [segToks, if_neg (by rw [hp₂]; simp), List.append_nil]
          · -- inner segment: cs = x ++ '/' :: cs₂
            have hlen₂ : cs₂.length ≤ n := by
              have : cs.length = x.length + (cs₂.length + 1) := by
                rw [hcs]; simp [List.length_append]
              omega
            have hwf₂ : ∀ s ∈ splitSlash cs₂, wellFormedSeg s = true := fun s hs =>
              hwf s (by rw [hsp, ← hsp₂]; exact List.mem_cons_of_mem x hs)
            by_cases hp : isParamSeg x = true
            · rcases x with _ | ⟨c, _ | ⟨a, r⟩⟩
              · rw [isParamSeg_nil] at hp; cases hp
              · rw [isParamSeg_single] at hp; cases hp
              · have hc : c = ':' := by
                  by_contra hne
                  rw [isParamSeg_cons_ne c _ hne] at hp; cases hp
                subst hc
                subst hcs
                have htw : ((a :: r) ++ '/' :: cs₂).takeWhile (· ≠ '/') = a :: r :=
                  takeWhile_all_append _ _ _ _
                    (fun d hd => by
                      simp [hxsl d (List.mem_cons_of_mem ':' hd)])
                    (by simp)
                rw [List.cons_append, tokenize_colon_param _ (by rw [htw]; simp)] at h
                rw [htw, List.drop_left] at h
                rw [tokenize_cons_lit '/' cs₂ (by decide) (by decide),
                    if_neg (by decide)] at h
                cases htk : tokenize cs₂ with
                | none => rw [htk] at h; cases h
                | some toks₂ =>
                    rw [htk, Option.map_some', Option.map_some'] at h
                    have hrec := ih cs₂ hlen₂ toks₂ htk hwf₂
                    rw [← Option.some.inj h, hrec, ← hsp₂]
                    cases hsp₃ : splitSlash cs₂ with
                    | nil => exact absurd hsp₃ (splitSlash_ne_nil cs₂)
                    | cons y ys =>
                        show _ = tmplToks ((':' :: a :: r) :: y :: ys)
                        rw [tmplToks, segToks, if_pos (isParamSeg_param a r)]
                        rfl
            · have hp₂ : isParamSeg x = false := by simpa using hp
              obtain ⟨hnc, hnd⟩ := wellFormedSeg_literal x hxwf hp₂
              subst hcs
              obtain ⟨toks₁, htk₁, heq⟩ := tokenize_lit_run x hnc hnd ('/' :: cs₂) toks h
              rw [tokenize_cons_lit '/' cs₂ (by decide) (by decide),
                  if_neg (by decide)] at htk₁
              cases htk : tokenize cs₂ with
              | none => rw [htk] at htk₁; cases htk₁
              | some toks₂ =>
                  rw [htk, Option.map_some'] at htk₁
                  have hrec := ih cs₂ hlen₂ toks₂ htk hwf₂
                  rw [heq, ← Option.some.inj htk₁, hrec, ← hsp₂]
                  cases hsp₃ : splitSlash cs₂ with
                  | nil => exact absurd hsp₃ (splitSlash_ne_nil cs₂)
                  | cons y ys =>
                      show _ = tmplToks (x :: y :: ys)
                      rw [tmplToks, segToks, if_neg (by rw [hp₂]; simp)]

theorem tokenize_eq_tmplToks (cs : List Char) (toks : List Tok)
    (h : tokenize cs = some toks)
    (hwf : ∀ s ∈ splitSlash cs, wellFormedSeg s = true) :
    toks = tmplToks (splitSlash cs) :=
  tokenize_eq_tmplToks_aux cs.length cs le_rfl toks h hwf

theorem segAccept_param (s p : List Char) (hp : isParamSeg s = true) :
    segAccept s p ↔ p ≠ [] := by
  unfold segAccept
  rw [if_pos hp]

theorem segAccept_lit (s p : List Char) (hp : isParamSeg s = false) :
    segAccept s p ↔ p = s := by
  unfold segAccept
  rw [if_neg (by simp [hp])]

theorem forall₂_cons_right_ne_nil {R : List Char → List Char → Prop}
    {a : List Char} {l u : List (List Char)} (h : List.Forall₂ R (a :: l) u) :
    u ≠ [] := by
  rw [List.forall₂_cons_left_iff] at h
  obtain ⟨b, u₂, _, _, hu⟩ := h
  rw [hu]
  simp

theorem toksMatch_nil_iff (cs : List Char) : toksMatch [] cs = true ↔ cs = [] := by
  cases cs with
  | nil => simp [toksMatch]
  | cons a b => simp [toksMatch]

/-- The anchored matcher of a joined segment list accepts exactly the
paths whose `'/'`-split is segment-wise accepted. -/
theorem toksMatch_tmplToks (segs : List (List Char)) :
    ∀ cs, (∀ s ∈ segs, ∀ c ∈ s, c ≠ '/') → segs ≠ [] →
      (toksMatch (tmplToks segs) cs = true ↔
        List.Forall₂ segAccept segs (splitSlash cs)) := by
  induction segs with
  | nil => intro cs _ hne; exact absurd rfl hne
  | cons s rest ih =>
      intro cs hsl _
      cases rest with
      | nil =>
          show toksMatch (segToks s) cs = true ↔ _
          by_cases hp : isParamSeg s = true
          · rw [segToks, if_pos hp]
            constructor
            · intro h
              obtain ⟨pre, suf, heq, hne, hpre, hm⟩ := (toksMatch_param_cons [] cs).mp h
              have hsuf : suf = [] := (toksMatch_nil_iff suf).mp hm
              subst hsuf
              rw [List.append_nil] at heq
              rw [heq, splitSlash_no_slash pre hpre]
              exact List.Forall₂.cons ((segAccept_param s pre hp).mpr hne) List.Forall₂.nil
            · intro h
              rw [List.forall₂_cons_left_iff] at h
              obtain ⟨b, u, hacc, htail, hsp⟩ := h
              rw [List.forall₂_nil_left_iff] at htail
              subst htail
              rcases splitSlash_inversion cs b [] hsp with ⟨_, hcs⟩ | ⟨cs₂, _, hsp₂⟩
              · have hbne : b ≠ [] := (segAccept_param s b hp).mp hacc
                have hbsl : ∀ c ∈ b, c ≠ '/' :=
                  mem_splitSlash_no_slash cs b (by rw [hsp]; exact List.mem_cons_self b [])
                exact (toksMatch_param_cons [] cs).mpr
                  ⟨b, [], by rw [hcs, List.append_nil], hbne, hbsl,
                    (toksMatch_nil_iff []).mpr rfl⟩
              · exact absurd hsp₂ (splitSlash_ne_nil cs₂)
          · have hp₂ : isParamSeg s = false := by simpa using hp
            rw [segToks, if_neg (by rw [hp₂]; simp)]
            have hb1 := toksMatch_litToks_append s [] cs
            rw [List.append_nil] at hb1
            rw [hb1]
            constructor
            · rintro ⟨cs₂, heq, hm⟩
              have hcs₂ : cs₂ = [] := (toksMatch_nil_iff cs₂).mp hm
              subst hcs₂
              rw [List.append_nil] at heq
              rw [heq, splitSlash_no_slash s (hsl s (by simp))]
              exact List.Forall₂.cons ((segAccept_lit s s hp₂).mpr rfl) List.Forall₂.nil
            · intro h
              rw [List.forall₂_cons_left_iff] at h
              obtain ⟨b, u, hacc, htail, hsp⟩ := h
              rw [List.forall₂_nil_left_iff] at htail
              subst htail
              have hbs : b = s := (segAccept_lit s b hp₂).mp hacc
              rcases splitSlash_inversion cs b [] hsp with ⟨_, hcs⟩ | ⟨cs₂, _, hsp₂⟩
              · exact ⟨[], by rw [hcs, hbs, List.append_nil], (toksMatch_nil_iff []).mpr rfl⟩
              · exact absurd hsp₂ (splitSlash_ne_nil cs₂)
      | cons s₂ rest₂ =>
          have hslr : ∀ t ∈ s₂ :: rest₂, ∀ c ∈ t, c ≠ '/' := fun t ht =>
            hsl t (List.mem_cons_of_mem s ht)
          show toksMatch (segToks s ++ Tok.lit '/' :: tmplToks (s₂ :: rest₂)) cs = true ↔ _
          by_cases hp : isParamSeg s = true
          · rw [segToks, if_pos hp]
            constructor
            · intro h
              obtain ⟨pre, suf, heq, hne, hpre, hm⟩ := (toksMatch_param_cons _ cs).mp h
              obtain ⟨suf₂, hsuf, hm₂⟩ := (toksMatch_lit_cons '/' _ suf).mp hm
              have hsplit : splitSlash cs = pre :: splitSlash suf₂ := by
                rw [heq, hsuf]
                exact splitSlash_append pre suf₂ hpre
              rw [hsplit]
              exact List.Forall₂.cons ((segAccept_param s pre hp).mpr hne)
                ((ih suf₂ hslr (by simp)).mp hm₂)
            · intro h
              rw [List.forall₂_cons_left_iff] at h
              obtain ⟨b, u, hacc, htail, hsp⟩ := h
              have hune : u ≠ [] := forall₂_cons_right_ne_nil htail
              rcases splitSlash_inversion cs b u hsp with ⟨hu0, _⟩ | ⟨cs₂, hcs, hsp₂⟩
              · exact absurd hu0 hune
              · have hbne : b ≠ [] := (segAccept_param s b hp).mp hacc
                have hbsl : ∀ c ∈ b, c ≠ '/' :=
                  mem_splitSlash_no_slash cs b (by rw [hsp]; exact List.mem_cons_self b u)
                exact (toksMatch_param_cons _ cs).mpr
                  ⟨b, '/' :: cs₂, by rw [hcs], hbne, hbsl,
                    (toksMatch_lit_cons '/' _ _).mpr
                      ⟨cs₂, rfl, (ih cs₂ hslr (by simp)).mpr (hsp₂ ▸ htail)⟩⟩
          · have hp₂ : isParamSeg s = false := by simpa using hp
            rw [segToks, if_neg (by rw [hp₂]; simp)]
            rw [toksMatch_litToks_append]
            constructor
            · rintro ⟨cs₂, heq, hm⟩
              obtain ⟨cs₃, hsuf, hm₂⟩ := (toksMatch_lit_cons '/' _ cs₂).mp hm
              have hssl : ∀ c ∈ s, c ≠ '/' := hsl s (by simp)
              have hsplit : splitSlash cs = s :: splitSlash cs₃ := by
                rw [heq, hsuf]
                exact splitSlash_append s cs₃ hssl
              rw [hsplit]
              exact List.Forall₂.cons ((segAccept_lit s s hp₂).mpr rfl)
                ((ih cs₃ hslr (by simp)).mp hm₂)
            · intro h
              rw [List.forall₂_cons_left_iff] at h
              obtain ⟨b, u, hacc, htail, hsp⟩ := h
              have hbs : b = s := (segAccept_lit s b hp₂).mp hacc
              have hune : u ≠ [] := forall₂_cons_right_ne_nil htail
              rcases splitSlash_inversion cs b u hsp with ⟨hu0, _⟩ | ⟨cs₂, hcs, hsp₂⟩
              · exact absurd hu0 hune
              · exact ⟨'/' :: cs₂, by rw [hcs, hbs],
                  (toksMatch_lit_cons '/' _ _).mpr
                    ⟨cs₂, rfl, (ih cs₂ hslr (by simp)).mpr (hsp₂ ▸ htail)⟩⟩

/-! ## Claims -/

/-- C9: `isOriginAllowed` treats the configuration as the allow-all
wildcard only when `Origins` is exactly the one-element list `["*"]`;
any other configuration (in particular every list of two or more
entries, even ones containing the literal `"*"`) allows exactly the
origins that equal one of the entries. -/
theorem c9_isOriginAllowed_characterization (r : Router) (origin : String) :
    r.isOriginAllowed origin = true ↔ (r.Origins = ["*"] ∨ origin ∈ r.Origins) := by
  unfold Router.isOriginAllowed
  rcases h : r.Origins with _ | ⟨a, _ | ⟨b, t⟩⟩
  · simp
  · by_cases ha : a = "*"
    · subst ha; simp
    · simp [ha, List.elem_iff, List.getD]
  · simp [List.elem_iff, List.getD]

/-- C10: `attachCORSHeaders` changes only the three access-control
header keys; the status code, the body, and the value of every other
header key are unchanged. -/
theorem c10_attachCORSHeaders_frame (r : Router) (resp : Envelope) (req : Request) :
    (r.attachCORSHeaders resp req).StatusCode = resp.StatusCode ∧
    (r.attachCORSHeaders resp req).Body = resp.Body ∧
    ∀ k, k ≠ "Access-Control-Allow-Origin" → k ≠ "Access-Control-Allow-Methods" →
      k ≠ "Access-Control-Allow-Headers" →
      mapGet ((r.attachCORSHeaders resp req).Headers.getD []) k =
        mapGet (resp.Headers.getD []) k := by
  refine ⟨rfl, rfl, ?_⟩
  intro k h₁ h₂ h₃
  show mapGet (mapSet (mapSet (mapSet (resp.Headers.getD []) _ _) _ _) _ _) k = _
  rw [mapGet_mapSet_ne _ _ _ _ h₃, mapGet_mapSet_ne _ _ _ _ h₂,
      mapGet_mapSet_ne _ _ _ _ h₁]

/-- Witness for C10 at a concrete input: a pre-existing unrelated header
survives header attachment. -/
theorem c10_attachCORSHeaders_frame_witness :
    mapGet ((NewRouter.attachCORSHeaders
        { StatusCode := 200, Headers := some [("X-Request-Id", "r1")], Body := "ok" }
        { Method := "GET", Path := "/a", Headers := [] }).Headers.getD [])
      "X-Request-Id" = some "r1" := by
  have h := (c10_attachCORSHeaders_frame NewRouter
      { StatusCode := 200, Headers := some [("X-Request-Id", "r1")], Body := "ok" }
      { Method := "GET", Path := "/a", Headers := [] }).2.2
      "X-Request-Id" (by decide) (by decide) (by decide)
  rw [h]
  simp [mapGet]

/-- C3: serialization failure is not surfaced as a 500 error envelope —
the marshalling error is discarded, and the dispatcher returns the
success envelope: status 200, `Content-Type: application/json`, and an
empty body (the string of the `nil` byte slice), here shown end to end
through `HandleRequest` for a matched route whose handler succeeds with
an unserializable value. -/
theorem c3_serialization_failure_yields_200_empty_body :
    ((NewRouter.Get "/u" fun _ _ => .ok (.vunser "unbuffered channel")).map
        fun r => r.HandleRequest { Method := "GET", Path := "/u", Headers := [] }) =
      some
        { StatusCode := 200
          Headers := some
            [("Content-Type", "application/json"),
             ("Access-Control-Allow-Origin", "*"),
             ("Access-Control-Allow-Methods", "*"),
             ("Access-Control-Allow-Headers", "*")]
          Body := "" } := by
  simp [Router.Get, Router.AddRoute, buildPathPattern, tokenize, metachars, NewRouter,
        Router.HandleRequest, routeLoop, Regexp.MatchString, toksMatch, extractParams_eq_nil,
        SuccessResponse, jsonMarshal, Router.attachCORSHeaders, Router.isOriginAllowed,
        mapGetD, mapGet, mapSet, String.intercalate, String.intercalate.go]

/-- C4 counterexample: for the method `OPTIONS`, a path that matches no
registered route (here: the router has no routes at all) is answered by
the preflight branch with status 200, not by the 404 envelope. -/
theorem c4_counterexample_options_not_404 :
    NewRouter.HandleRequest { Method := "OPTIONS", Path := "/nowhere", Headers := [] } =
      { StatusCode := 200
        Headers := some
          [("Access-Control-Allow-Origin", ""),
           ("Access-Control-Allow-Methods", "*"),
           ("Access-Control-Allow-Headers", "*")]
        Body := "" } := by
  simp [Router.HandleRequest, Router.corsPreflightResponse, Router.isOriginAllowed,
        NewRouter, mapGetD, mapGet, String.intercalate, String.intercalate.go]

/-- C4 (amended: every method except `OPTIONS`): when no registered
route matches the request, `HandleRequest` returns status 404 with body
`"Route not found"`. -/
theorem c4_unmatched_non_options_is_404 (r : Router) (req : Request)
    (hm : req.Method ≠ "OPTIONS")
    (hnm : ∀ rt ∈ r.routes, ¬(rt.Method = req.Method ∧ rt.Pattern.MatchString req.Path)) :
    (r.HandleRequest req).StatusCode = 404 ∧ (r.HandleRequest req).Body = "Route not found" := by
  unfold Router.HandleRequest
  rw [if_neg hm, routeLoop_of_no_match req r.routes hnm]
  exact ⟨rfl, rfl⟩

/-- Witness for the amended C4 at a concrete input. -/
theorem c4_unmatched_non_options_is_404_witness :
    (NewRouter.HandleRequest { Method := "GET", Path := "/nowhere", Headers := [] }).StatusCode
        = 404 ∧
      (NewRouter.HandleRequest { Method := "GET", Path := "/nowhere", Headers := [] }).Body
        = "Route not found" :=
  c4_unmatched_non_options_is_404 NewRouter
    { Method := "GET", Path := "/nowhere", Headers := [] }
    (by decide) (by intro rt hrt; cases hrt)

/-- After `attachCORSHeaders`, the three access-control headers hold the
evaluator's values: the computed allow-origin and the configured lists
joined by `", "`. -/
theorem attachCORSHeaders_lookup (r : Router) (resp : Envelope) (req : Request) :
    mapGet ((r.attachCORSHeaders resp req).Headers.getD []) "Access-Control-Allow-Origin"
        = some (corsAllowOrigin r req) ∧
    mapGet ((r.attachCORSHeaders resp req).Headers.getD []) "Access-Control-Allow-Methods"
        = some (String.intercalate ", " r.Methods) ∧
    mapGet ((r.attachCORSHeaders resp req).Headers.getD []) "Access-Control-Allow-Headers"
        = some (String.intercalate ", " r.Headers) := by
  refine ⟨?_, ?_, ?_⟩ <;>
    show mapGet (mapSet (mapSet (mapSet (resp.Headers.getD [])
        "Access-Control-Allow-Origin" (corsAllowOrigin r req))
        "Access-Control-Allow-Methods" (String.intercalate ", " r.Methods))
        "Access-Control-Allow-Headers" (String.intercalate ", " r.Headers)) _ = _
  · rw [mapGet_mapSet_ne _ _ _ _ (by decide), mapGet_mapSet_ne _ _ _ _ (by decide),
        mapGet_mapSet_self]
  · rw [mapGet_mapSet_ne _ _ _ _ (by decide), mapGet_mapSet_self]
  · rw [mapGet_mapSet_self]

/-- C7: an `OPTIONS` request is answered by the preflight branch alone:
the response only depends on the CORS configuration and the request's
`origin` header (any two routers agreeing on the configuration answer
identically, whatever their route tables), and it is the 403
`"Origin not allowed"` envelope without headers for a disallowed origin,
else a 200 echoing the origin with the configured lists joined by
`", "`. -/
theorem c7_options_pure_preflight (r r₂ : Router) (req : Request)
    (hm : req.Method = "OPTIONS")
    (ho : r.Origins = r₂.Origins) (hme : r.Methods = r₂.Methods) (hh : r.Headers = r₂.Headers) :
    r.HandleRequest req = r₂.HandleRequest req ∧
    (if r.isOriginAllowed (mapGetD req.Headers "origin") then
      r.HandleRequest req =
        { StatusCode := 200
          Headers := some
            [("Access-Control-Allow-Origin", mapGetD req.Headers "origin"),
             ("Access-Control-Allow-Methods", String.intercalate ", " r.Methods),
             ("Access-Control-Allow-Headers", String.intercalate ", " r.Headers)]
          Body := "" }
    else
      r.HandleRequest req =
        { StatusCode := 403, Headers := none, Body := "Origin not allowed" }) := by
  constructor
  · unfold Router.HandleRequest
    rw [if_pos hm, if_pos hm]
    unfold Router.corsPreflightResponse Router.isOriginAllowed
    rw [ho, hme, hh]
  · unfold Router.HandleRequest
    rw [if_pos hm]
    by_cases ha : r.isOriginAllowed (mapGetD req.Headers "origin")
    · rw [if_pos ha]
      unfold Router.corsPreflightResponse
      rw [if_neg (by simp [ha])]
    · rw [if_neg ha]
      unfold Router.corsPreflightResponse
      rw [if_pos (by simp [Bool.not_eq_true] at ha ⊢; exact ha)]

/-- Witness for C7 at a concrete input: the routers differ in their route
tables (one of them even has a matching `GET /a` route) yet give the same
preflight answer. -/
theorem c7_options_pure_preflight_witness :
    Router.HandleRequest
        { NewRouter with routes :=
            [{ Method := "GET", Pattern := ⟨[Tok.lit '/', Tok.lit 'a']⟩,
               Handler := fun _ _ => .ok .vnull, Template := "/a" }] }
        { Method := "OPTIONS", Path := "/a", Headers := [("origin", "https://x.example")] } =
      NewRouter.HandleRequest
        { Method := "OPTIONS", Path := "/a", Headers := [("origin", "https://x.example")] } :=
  (c7_options_pure_preflight _ NewRouter
    { Method := "OPTIONS", Path := "/a", Headers := [("origin", "https://x.example")] }
    rfl rfl rfl rfl).1

/-- C8: a matched handler returning a structured error with code `c` and
message `m` produces the envelope with status `c` and body
`"Error: " + m`. -/
theorem c8_handler_error_envelope (r : Router) (req : Request) (pre post : List Route)
    (rt : Route) (e : LambdaErrorResponse)
    (hm : req.Method ≠ "OPTIONS")
    (hr : r.routes = pre ++ rt :: post)
    (hskip : ∀ rt' ∈ pre, ¬(rt'.Method = req.Method ∧ rt'.Pattern.MatchString req.Path))
    (hmatch : rt.Method = req.Method ∧ rt.Pattern.MatchString req.Path)
    (herr : rt.Handler req (extractParams req.Path rt.Pattern) = .error e) :
    r.HandleRequest req =
      { StatusCode := e.CodeValue, Headers := none, Body := "Error: " ++ e.MessageValue } := by
  unfold Router.HandleRequest
  rw [if_neg hm, hr, routeLoop_append, routeLoop_of_no_match req pre hskip, if_pos rfl]
  simp only [routeLoop, if_pos hmatch, herr]
  rfl

/-- Witness for C8 at the spec's example: error `{404, "not found"}`
yields `{statusCode: 404, body: "Error: not found"}`. -/
theorem c8_handler_error_envelope_witness :
    Router.HandleRequest
        { NewRouter with routes :=
            [{ Method := "GET", Pattern := ⟨[Tok.lit '/', Tok.lit 'x']⟩,
               Handler := fun _ _ => .error (NewLambdaError 404 "not found"),
               Template := "/x" }] }
        { Method := "GET", Path := "/x", Headers := [] } =
      { StatusCode := 404, Headers := none, Body := "Error: not found" } :=
  c8_handler_error_envelope _ { Method := "GET", Path := "/x", Headers := [] }
    [] [] _ (NewLambdaError 404 "not found")
    (by decide) rfl (by intro rt hrt; cases hrt) ⟨rfl, by decide⟩ rfl

/-- C2 counterexample: on a matched route whose handler errors, the
error envelope is returned before the CORS header-attachment step runs —
its header map is `nil` and in particular contains no
`Access-Control-Allow-Origin`, although the request is not `OPTIONS` and
even carries an allowed origin. -/
theorem c2_counterexample_error_envelope_lacks_cors :
    ((NewRouter.Get "/e" fun _ _ => .error (NewLambdaError 500 "boom")).map
        fun r => r.HandleRequest
          { Method := "GET", Path := "/e",
            Headers := [("origin", "https://client.example")] }) =
      some { StatusCode := 500, Headers := none, Body := "Error: boom" } := by
  simp [Router.Get, Router.AddRoute, buildPathPattern, tokenize, metachars, NewRouter,
        Router.HandleRequest, routeLoop, Regexp.MatchString, toksMatch, ErrorResponse,
        NewLambdaError, LambdaErrorResponse.Code, LambdaErrorResponse.Message]

/-- C2 (amended: handler error envelopes excepted): for every
non-`OPTIONS` request, a handler error envelope is returned directly
without the header-attachment step, while the handler success envelope
and the 404 envelope pass through it, so their headers carry the three
access-control keys — `Access-Control-Allow-Origin` being the request's
origin if present and allowed, else `"*"`. -/
theorem c2_non_options_cors_attachment (r : Router) (req : Request)
    (hm : req.Method ≠ "OPTIONS") :
    (∀ e, routeLoop req r.routes = .earlyReturn e → r.HandleRequest req = e) ∧
    (∀ found, routeLoop req r.routes = .fell found →
      mapGet ((r.HandleRequest req).Headers.getD []) "Access-Control-Allow-Origin"
          = some (corsAllowOrigin r req) ∧
      mapGet ((r.HandleRequest req).Headers.getD []) "Access-Control-Allow-Methods"
          = some (String.intercalate ", " r.Methods) ∧
      mapGet ((r.HandleRequest req).Headers.getD []) "Access-Control-Allow-Headers"
          = some (String.intercalate ", " r.Headers)) := by
  constructor
  · intro e he
    unfold Router.HandleRequest
    rw [if_neg hm, he]
  · intro found hf
    unfold Router.HandleRequest
    rw [if_neg hm, hf]
    exact attachCORSHeaders_lookup r _ req

/-- Witness for the amended C2 at a concrete input: the 404 envelope of
a routeless router carries the wildcard allow-origin. -/
theorem c2_non_options_cors_attachment_witness :
    mapGet ((NewRouter.HandleRequest
        { Method := "GET", Path := "/nowhere", Headers := [] }).Headers.getD [])
      "Access-Control-Allow-Origin" = some "*" :=
  ((c2_non_options_cors_attachment NewRouter
      { Method := "GET", Path := "/nowhere", Headers := [] } (by decide)).2
    none rfl).1

/-- C6: route lookup scans the table in registration order and the first
route whose method and matcher both accept determines the response;
consequently a route registered after one with the same method and
template (hence the same compiled pattern) is never invoked: replacing
its handler (or anything else about it, pattern and method aside) leaves
every response unchanged. -/
theorem c6_first_match_and_shadowing :
    (∀ (r : Router) (req : Request) (pre post : List Route) (rt : Route),
        req.Method ≠ "OPTIONS" →
        r.routes = pre ++ rt :: post →
        (rt.Method = req.Method ∧ rt.Pattern.MatchString req.Path) →
        (∀ rt' ∈ pre, ¬(rt'.Method = req.Method ∧ rt'.Pattern.MatchString req.Path)) →
        r.HandleRequest req = dispatchVia r req rt) ∧
    (∀ (r : Router) (req : Request) (pre mid post : List Route) (rt₁ rt₂ rt₂' : Route),
        rt₁.Method = rt₂.Method → rt₁.Template = rt₂.Template → rt₁.Pattern = rt₂.Pattern →
        rt₂'.Method = rt₂.Method → rt₂'.Pattern = rt₂.Pattern →
        Router.HandleRequest { r with routes := pre ++ rt₁ :: mid ++ rt₂ :: post } req =
          Router.HandleRequest { r with routes := pre ++ rt₁ :: mid ++ rt₂' :: post } req) := by
  constructor
  · intro r req pre post rt hm hr hmatch hskip
    unfold Router.HandleRequest
    rw [if_neg hm, hr, routeLoop_append, routeLoop_of_no_match req pre hskip, if_pos rfl]
    simp only [routeLoop, if_pos hmatch]
    cases hh : rt.Handler req (extractParams req.Path rt.Pattern) with
    | error e => simp [dispatchVia, hh]
    | ok d =>
        simp only [dispatchVia, hh, Option.getD]
        rw [if_neg (show ¬(SuccessResponse d).StatusCode = 0 by simp [SuccessResponse])]
  · intro r req pre mid post rt₁ rt₂ rt₂' hM hT hP hM' hP'
    unfold Router.HandleRequest
    by_cases hm : req.Method = "OPTIONS"
    · rw [if_pos hm, if_pos hm]
      rfl
    · rw [if_neg hm, if_neg hm]
      have hassoc : ∀ z : Route,
          pre ++ rt₁ :: mid ++ z :: post = (pre ++ rt₁ :: mid) ++ z :: post := by
        intro z
        rw [List.append_assoc, List.cons_append]
      have main : ∀ z : Route, z.Method = rt₂.Method → z.Pattern = rt₂.Pattern →
          routeLoop req ((pre ++ rt₁ :: mid) ++ z :: post)
            = (if routeLoop req (pre ++ rt₁ :: mid) = .fell none then routeLoop req post
               else routeLoop req (pre ++ rt₁ :: mid)) := by
        intro z hzM hzP
        rw [routeLoop_append]
        by_cases hA : routeLoop req (pre ++ rt₁ :: mid) = .fell none
        · rw [if_pos hA, if_pos hA]
          have h₁ : ¬(rt₁.Method = req.Method ∧ rt₁.Pattern.MatchString req.Path) :=
            no_match_of_routeLoop_fell_none req _ hA rt₁ (by simp)
          have hz : ¬(z.Method = req.Method ∧ z.Pattern.MatchString req.Path) := by
            rw [hzM, hzP, ← hM, ← hP]; exact h₁
          simp only [routeLoop, if_neg hz]
        · rw [if_neg hA, if_neg hA]
      have key : routeLoop req (pre ++ rt₁ :: mid ++ rt₂ :: post)
          = routeLoop req (pre ++ rt₁ :: mid ++ rt₂' :: post) := by
        rw [hassoc rt₂, hassoc rt₂', main rt₂ rfl rfl, main rt₂' hM' hP']
      rw [key]
      cases routeLoop req (pre ++ rt₁ :: mid ++ rt₂' :: post) with
      | earlyReturn e => rfl
      | fell found => rfl

/-- Witness for C6 at a concrete input: two `GET /a` registrations with
different handlers; swapping the second handler changes nothing. -/
theorem c6_first_match_and_shadowing_witness :
    Router.HandleRequest
        { NewRouter with routes :=
            [{ Method := "GET", Pattern := ⟨[Tok.lit '/', Tok.lit 'a']⟩,
               Handler := fun _ _ => .ok (.vint 1), Template := "/a" },
             { Method := "GET", Pattern := ⟨[Tok.lit '/', Tok.lit 'a']⟩,
               Handler := fun _ _ => .ok (.vint 2), Template := "/a" }] }
        { Method := "GET", Path := "/a", Headers := [] } =
      Router.HandleRequest
        { NewRouter with routes :=
            [{ Method := "GET", Pattern := ⟨[Tok.lit '/', Tok.lit 'a']⟩,
               Handler := fun _ _ => .ok (.vint 1), Template := "/a" },
             { Method := "GET", Pattern := ⟨[Tok.lit '/', Tok.lit 'a']⟩,
               Handler := fun _ _ => .ok (.vint 3), Template := "/a" }] }
        { Method := "GET", Path := "/a", Headers := [] } :=
  c6_first_match_and_shadowing.2 NewRouter
    { Method := "GET", Path := "/a", Headers := [] } [] [] []
    _ _ _ rfl rfl rfl rfl rfl

/-- C1 (refuting, code bug): the compiled pattern for `/users/:id`
accepts `/users/42`, yet the extracted params are empty — the emitted
group is unnamed, so `SubexpNames` yields no entry for `id`; a probe
handler dispatched through `HandleRequest` observes that `params["id"]`
is absent. -/
theorem c1_matched_route_params_empty :
    ((buildPathPattern "/users/:id").map
        fun p => (p.MatchString "/users/42", extractParams "/users/42" p)) = some (true, []) ∧
    ((NewRouter.Get "/users/:id" fun _ params =>
        .ok (if (mapGet params "id").isSome then .vint 1 else .vnull)).map
        fun r => (r.HandleRequest
          { Method := "GET", Path := "/users/42", Headers := [] }).Body) = some "null" := by
  constructor
  · simp [buildPathPattern, tokenize, Regexp.MatchString, toksMatch, paramSuffixes,
          extractParams_eq_nil, metachars]
  · simp [Router.Get, Router.AddRoute, buildPathPattern, tokenize, metachars, NewRouter,
          Router.HandleRequest, routeLoop, Regexp.MatchString, toksMatch, paramSuffixes,
          extractParams_eq_nil, mapGet, SuccessResponse, jsonMarshal,
          Router.attachCORSHeaders, Router.isOriginAllowed, mapGetD, mapSet]

/-- C5 counterexample: literal template characters are not escaped
before compilation, so a regexp metacharacter keeps its pattern meaning —
the pattern compiled from `/a.c` (which has no parameter segment at all)
accepts the path `/abc`, although the literal segment `a.c` differs from
the path segment `abc`. -/
theorem c5_counterexample_metachar_literal :
    ((buildPathPattern "/a.c").map
        fun p => (p.MatchString "/abc", p.toks.any fun tok => tok == Tok.param)) =
      some (true, false) ∧ "/a.c" ≠ "/abc" := by
  constructor
  · simp [buildPathPattern, tokenize, metachars, Regexp.MatchString, toksMatch]
  · decide

/-- C5 (amended: restricted to templates whose segments are each either a
parameter segment `:name` or a literal segment containing neither `':'`
nor a regexp metacharacter such as `'.'`): the compiled matcher accepts a
path iff it has the same number of `/`-separated segments as the
template, every literal segment equals the corresponding path segment
exactly, and every parameter segment corresponds to a non-empty path
segment; matching is anchored over the entire path. -/
theorem c5_template_segment_matching (t path : String) (p : Regexp)
    (hc : buildPathPattern t = some p)
    (hwf : ∀ s ∈ splitSlash t.data, wellFormedSeg s = true) :
    (p.MatchString path = true ↔
      List.Forall₂ segAccept (splitSlash t.data) (splitSlash path.data)) := by
  obtain ⟨toks, htk, hptoks⟩ : ∃ toks, tokenize t.data = some toks ∧ p = Regexp.mk toks := by
    unfold buildPathPattern at hc
    cases h : tokenize t.data with
    | none => rw [h] at hc; cases hc
    | some toks =>
        rw [h, Option.map_some'] at hc
        exact ⟨toks, rfl, (Option.some.inj hc).symm⟩
  subst hptoks
  have heq := tokenize_eq_tmplToks t.data toks htk hwf
  show toksMatch toks path.data = true ↔ _
  rw [heq]
  exact toksMatch_tmplToks (splitSlash t.data) path.data
    (mem_splitSlash_no_slash t.data) (splitSlash_ne_nil t.data)

/-- Witness for the amended C5 at a concrete input: the compiled
`/users/:id` pattern accepts `/users/42` because the segment counts
agree, `users` matches literally, and `42` is a non-empty parameter
segment. -/
theorem c5_template_segment_matching_witness :
    (Regexp.mk [Tok.lit '/', Tok.lit 'u', Tok.lit 's', Tok.lit 'e', Tok.lit 'r', Tok.lit 's',
        Tok.lit '/', Tok.param]).MatchString "/users/42" = true :=
  (c5_template_segment_matching "/users/:id" "/users/42" _
      (by simp [buildPathPattern, tokenize, metachars]) (by decide)).mpr
    (List.Forall₂.cons rfl
      (List.Forall₂.cons rfl
        (List.Forall₂.cons
          ((segAccept_param [':', 'i', 'd'] ['4', '2'] rfl).mpr (by decide))
          List.Forall₂.nil)))

end LambdaHandler
